import Mathlib

/-!
Verification of `scripts/build_custom_tad_genelist.py` from the
`tad_pathways_pipeline` repository.

The script is a one-shot batch transformation: it loads a TAD-to-gene index
table and a SNP table, and for each SNP finds all genes whose TAD interval
contains the SNP position on the matching chromosome, selects the nearest
protein-coding gene, and accumulates two result tables that are written as
tab-separated files.

The shallow embedding below translates the script's data model and operations
into Lean.  Pandas data frames become lists of records; the pandas row index
created by `reset_index(drop=True)` is modelled by explicit enumeration with
positional indices; `Series.sort_values()` is modelled by a stable insertion
sort on the distance rows (pandas/numpy use an unstable quicksort in general,
but for the small arrays occurring here numpy falls back to a stable insertion
sort, and the order of equal keys is otherwise unspecified); `DataFrame.min()`
becomes a recursive minimum over a list.  Genomic coordinates are integers and
are embedded as `Int`; absolute distances are `Nat` via `Int.natAbs`.
-/

namespace TadPathways

/-- One row of the TAD-to-gene index table (`tad_genes_df`, loaded from
`GENE_index_hg19_<cell>.tsv.bz2`).  Fields are the columns accessed by the
script (`chromosome`, `TAD_start`, `TAD_end`, `gene_type`, `start`, `stop`,
`gene_name`) plus the remaining columns that ride along into the output
(`TADidx`, `strand`, `db`, `type`). -/
structure TadGeneRow where
  chromosome : String
  TAD_start : Int
  TAD_end : Int
  TADidx : String
  gene_name : String
  gene_type : String
  start : Int
  stop : Int
  strand : String
  db : String
  type : String
deriving DecidableEq, Repr

/-- One row of the SNP table (`snp_df`), with the fields the script accesses:
`snp` (the RSid, `snp_series.snp`), `chrom` (e.g. `"chr1"`), `position`
(genomic position, converted with `int(...)` in the script) and `group`. -/
structure SnpRow where
  snp : String
  chrom : String
  position : Int
  group : String
deriving DecidableEq, Repr

/-- Embedding of `assign_custom_snp_to_tad(snp_signal, tad_boundary)`:

    chrom = ('chrom', str(snp_signal.chrom[3:]))
    snp_loc = ('snploc', int(snp_signal.position))
    tad = tad_boundary.ix[
        (tad_boundary.chromosome == str(chrom[1])) &
        (tad_boundary.TAD_start <= snp_loc[1]) &
        (tad_boundary.TAD_end > snp_loc[1])]
    return tad.reset_index(drop=True)

The slice `snp_signal.chrom[3:]` drops the first three characters of the
SNP's chromosome string (`String.drop 3`); the boolean mask keeps the rows of
the table satisfying all three conditions, preserving the table's order.
`reset_index(drop=True)` relabels rows `0..n-1`; in the list embedding the
positional order already carries that information. -/
def assign_custom_snp_to_tad (snp_signal : SnpRow) (tad_boundary : List TadGeneRow) :
    List TadGeneRow :=
  let chrom := snp_signal.chrom.drop 3
  let snp_loc := snp_signal.position
  tad_boundary.filter fun r =>
    (r.chromosome == chrom) && decide (r.TAD_start ≤ snp_loc) && decide (r.TAD_end > snp_loc)

/-- The condition under which a SNP belongs to a TAD row, as the code tests it:
the table's chromosome equals the SNP's chromosome with its first three
characters dropped, and the position lies in the half-open interval
`[TAD_start, TAD_end)`. -/
def snpInTadRow (s : SnpRow) (r : TadGeneRow) : Prop :=
  r.chromosome = s.chrom.drop 3 ∧ r.TAD_start ≤ s.position ∧ s.position < r.TAD_end

instance (s : SnpRow) (r : TadGeneRow) : Decidable (snpInTadRow s r) := by
  unfold snpInTadRow; infer_instance

theorem mem_assign_iff (s : SnpRow) (T : List TadGeneRow) (r : TadGeneRow) :
    r ∈ assign_custom_snp_to_tad s T ↔ r ∈ T ∧ snpInTadRow s r := by
  simp only [assign_custom_snp_to_tad, List.mem_filter, Bool.and_eq_true, beq_iff_eq,
    decide_eq_true_eq, snpInTadRow, gt_iff_lt, and_assoc]

/-! ## Nearest protein-coding gene selection

Embedding of the block

    protein_coding = tad_assignment[tad_assignment['gene_type'] == 'protein_coding']
    dist_df = pd.DataFrame((protein_coding.start - snp_series['position']).abs().sort_values())
    dist_df = dist_df.join(
        pd.DataFrame((protein_coding.stop - snp_series['position']).abs().sort_values()))
    near_gene_idx = dist_df[dist_df == dist_df.min().min()].dropna(thresh=1).index
    if len(near_gene_idx) == 0:
        nearest_gene = ''
    else:
        near_gene_idx = near_gene_idx.tolist()[0]
        nearest_gene = tad_assignment.ix[near_gene_idx].gene_name

`tad_assignment` has the row labels `0..n-1` (after `reset_index(drop=True)`),
and `protein_coding` keeps the labels of the rows it retains, so the distance
series are indexed by positions into `tad_assignment`.  A distance row below is
a triple `(label, |start - p|, |stop - p|)`.  `sort_values()` orders the start
distances ascending; the `join` attaches the stop distance of the same label
and keeps the left (start-sorted) row order, so the joined frame is the list of
triples sorted by the start distance.  `dist_df.min().min()` is the minimum of
the two column minima; the mask/`dropna(thresh=1)` step keeps, in sorted
order, the labels of the rows whose start or stop distance equals that global
minimum, and `.tolist()[0]` takes the first of them. -/

/-- `|a - p|`, the absolute genomic distance used by the script. -/
def snpDist (p a : Int) : Nat := (a - p).natAbs

/-- A row of the joined distance frame: `(row label, |start-p|, |stop-p|)`. -/
abbrev DistRow := Nat × Nat × Nat

/-- Pandas row labels for a frame relabelled `0..n-1`: pair every row with its
position, starting from `n`. -/
def enumRows : Nat → List TadGeneRow → List (Nat × TadGeneRow)
  | _, [] => []
  | n, r :: l => (n, r) :: enumRows (n + 1) l

/-- `tad_assignment[tad_assignment['gene_type'] == 'protein_coding']`:
the protein-coding rows, keeping their row labels. -/
def protein_coding_rows (A : List TadGeneRow) : List (Nat × TadGeneRow) :=
  (enumRows 0 A).filter fun ir => ir.2.gene_type == "protein_coding"

/-- The (unsorted) distance triples of the protein-coding rows. -/
def distRows (p : Int) (A : List TadGeneRow) : List DistRow :=
  (protein_coding_rows A).map fun ir => (ir.1, snpDist p ir.2.start, snpDist p ir.2.stop)

/-- Stable insertion (by the start-distance component) used to model
`sort_values()` on the start-distance series: an element is inserted before
the first element whose key is not smaller, so an earlier element precedes
later elements with an equal key. -/
def insertDist (x : DistRow) : List DistRow → List DistRow
  | [] => [x]
  | y :: ys => if x.2.1 ≤ y.2.1 then x :: y :: ys else y :: insertDist x ys

/-- Stable sort of the distance triples by ascending start distance. -/
def sortDist : List DistRow → List DistRow
  | [] => []
  | x :: xs => insertDist x (sortDist xs)

/-- The joined distance frame `dist_df`: distance triples sorted by ascending
start distance (the `join` keeps the left frame's order and attaches the stop
distance of the same label). -/
def dist_df (p : Int) (A : List TadGeneRow) : List DistRow :=
  sortDist (distRows p A)

/-- `Series.min()`: minimum of a list of naturals, `none` when empty (pandas
returns NaN for an empty column). -/
def natMin : List Nat → Option Nat
  | [] => none
  | x :: l =>
    match natMin l with
    | none => some x
    | some m => some (min x m)

/-- `dist_df.min().min()`: the minimum of the two column minima of the joined
distance frame. -/
def dist_df_min (d : List DistRow) : Option Nat :=
  match natMin (d.map fun t => t.2.1), natMin (d.map fun t => t.2.2) with
  | some a, some b => some (min a b)
  | some a, none => some a
  | none, some b => some b
  | none, none => none

/-- `dist_df[dist_df == dist_df.min().min()].dropna(thresh=1).index`: the
labels, in the sorted frame's order, of the rows whose start or stop distance
equals the global minimum. -/
def near_gene_idx_list (p : Int) (A : List TadGeneRow) : List Nat :=
  match dist_df_min (dist_df p A) with
  | none => []
  | some m => ((dist_df p A).filter fun t => (t.2.1 == m) || (t.2.2 == m)).map fun t => t.1

/-- The `nearest_gene` value computed for one SNP: empty when no protein-coding
gene is present, otherwise `tad_assignment.ix[near_gene_idx].gene_name` for the
first label in `near_gene_idx`. -/
def nearestGeneName (p : Int) (A : List TadGeneRow) : String :=
  match (near_gene_idx_list p A).head? with
  | none => ""
  | some i =>
    match A.get? i with
    | some r => r.gene_name
    | none => ""

/-- `min(|start - p|, |stop - p|)` for a gene row: the quantity the spec calls
the gene's distance to the SNP. -/
def geneMinDist (p : Int) (r : TadGeneRow) : Nat :=
  min (snpDist p r.start) (snpDist p r.stop)

/-! ## Main loop and aggregation -/

/-- One row of `results_df`: a TAD-gene record with the two columns added by
`tad_assignment.assign(custom_snp=snp_series.snp)` and
`tad_assignment.assign(group=group)`. -/
structure ResultRow where
  row : TadGeneRow
  custom_snp : String
  group : String
deriving DecidableEq, Repr

/-- One row of `nearest_gene_df`: `[nearest_gene, snp_series.snp, group]`. -/
structure NearestRow where
  gene : String
  snp : String
  group : String
deriving DecidableEq, Repr

/-- The body of the inner loop for one SNP: compute the TAD assignment; if it
is non-empty, append the nearest-gene row to `nearest_gene_df` and the
annotated TAD-gene rows to `results_df`; otherwise leave both accumulators
unchanged (`if tad_assignment.shape[0] != 0`). -/
def processSnp (T : List TadGeneRow) (g : String) (s : SnpRow)
    (acc : List ResultRow × List NearestRow) : List ResultRow × List NearestRow :=
  let tad_assignment := assign_custom_snp_to_tad s T
  if tad_assignment.length ≠ 0 then
    let nearest_gene := nearestGeneName s.position tad_assignment
    (acc.1 ++ tad_assignment.map fun r => ⟨r, s.snp, g⟩,
     acc.2 ++ [⟨nearest_gene, s.snp, g⟩])
  else acc

/-- `snp_df.group.unique()`: the distinct values of a list in order of first
appearance (pandas `unique` returns uniques in order of appearance). -/
def uniqueFirst : List String → List String
  | [] => []
  | a :: l => a :: uniqueFirst (l.filter fun b => !(b == a))
termination_by l => l.length
decreasing_by
  simp only [List.length_cons]
  exact Nat.lt_succ_of_le (List.length_filter_le _ _)

/-- The double loop of the script: for each group (in order of first
appearance), iterate over the SNP rows of that group
(`snp_df[snp_df['group'] == group]`), threading the two accumulating tables,
which start empty.  Returns `(results_df, nearest_gene_df)`. -/
def runPipeline (T : List TadGeneRow) (snps : List SnpRow) :
    List ResultRow × List NearestRow :=
  (uniqueFirst (snps.map fun s => s.group)).foldl
    (fun acc g => (snps.filter fun s => s.group == g).foldl
        (fun a s => processSnp T g s a) acc)
    ([], [])

/-! ## Output stage -/

/-- `str.rfind(c)`-style search: the index of the last occurrence of `c`,
`none` when absent. -/
def lastIdxOf (cs : List Char) (c : Char) : Option Nat :=
  ((enumChars 0 cs).filter fun ic => ic.2 == c).getLast?.map fun ic => ic.1
where
  /-- pair every character with its index, starting from `n`. -/
  enumChars : Nat → List Char → List (Nat × Char)
    | _, [] => []
    | n, a :: l => (n, a) :: enumChars (n + 1) l

/-- Embedding of `os.path.splitext` (posixpath): split at the last `'.'` that
comes after the last `'/'`, provided at least one non-dot character precedes
it within the basename (so that leading dots, as in `".bashrc"`, never start
an extension). -/
def splitext (p : String) : String × String :=
  let cs := p.data
  let sepIdx : Int := match lastIdxOf cs '/' with | some i => (i : Int) | none => -1
  let dotIdx : Int := match lastIdxOf cs '.' with | some i => (i : Int) | none => -1
  if sepIdx < dotIdx then
    let nameStart := (sepIdx + 1).toNat
    let d := dotIdx.toNat
    if ((cs.drop nameStart).take (d - nameStart)).any (fun ch => !(ch == '.')) then
      (String.mk (cs.take d), String.mk (cs.drop d))
    else (p, "")
  else (p, "")

/-- `output_nearest_gene_file = '{}_nearest_gene.tsv'.format(os.path.splitext(output_file)[0])`. -/
def output_nearest_gene_file (output_file : String) : String :=
  (splitext output_file).1 ++ "_nearest_gene.tsv"

/-- The fixed header assigned to `results_df` just before writing
(`results_df.columns = [...]`). -/
def results_columns : List String :=
  ["TADEnd", "TADidx", "TADStart", "chrom", "custom_snp", "db", "gene_name", "gene_type",
   "group", "start", "stop", "strand", "type"]

/-- The fixed header assigned to `nearest_gene_df` just before writing
(`nearest_gene_df.columns = ['MAPPED_GENE', 'snp', 'group']`). -/
def nearest_gene_columns : List String := ["MAPPED_GENE", "snp", "group"]

/-- A tab-separated file written by `to_csv`, with the row type left abstract.
`writeIndex` records whether the pandas row index is written as an extra
leading column (`to_csv`'s default; the results file passes `index=False`). -/
structure TsvFile (ρ : Type) where
  path : String
  sep : Char
  header : List String
  rows : List ρ
  writeIndex : Bool
deriving Repr

/-- `results_df.to_csv(output_file, sep='\t', index=False)`. -/
def resultsOutput (T : List TadGeneRow) (snps : List SnpRow) (output_file : String) :
    TsvFile ResultRow :=
  { path := output_file, sep := '\t', header := results_columns,
    rows := (runPipeline T snps).1, writeIndex := false }

/-- `nearest_gene_df.to_csv(output_nearest_gene_file, sep='\t')` (the row
index is written, since `index=False` is not passed). -/
def nearestOutput (T : List TadGeneRow) (snps : List SnpRow) (output_file : String) :
    TsvFile NearestRow :=
  { path := output_nearest_gene_file output_file, sep := '\t', header := nearest_gene_columns,
    rows := (runPipeline T snps).2, writeIndex := true }

/-- The paths passed to `to_csv`, in the order the script writes them: the
results file first, then the nearest-gene file. -/
def writtenPaths (output_file : String) : List String :=
  [output_file, output_nearest_gene_file output_file]

/-! ## Constants block and the index-file name

The script's module-level constants block is

    snp_data_file = args.snp_data_file
    output_file = args.output_file
    output_nearest_gene_file = '{}_nearest_gene.tsv'.format(
        os.path.splitext(output_file)[0])

    index_file = "GENE_index_hg19_" + tad_cell + ".tsv.bz2"

No statement anywhere in the script assigns `tad_cell`; the parsed
`args.TAD_Boundary` value is never read.  Python name resolution is modelled
by an association list of the string-valued module names bound before
`index_file` is evaluated; evaluating a name that is not bound raises
`NameError`, modelled with `Except`. -/

/-- The string-valued module-level names bound by the constants block before
`index_file` is computed, in assignment order.  `tad_boundary_arg` is the
parsed value of `--TAD_Boundary` (`args.TAD_Boundary`); it appears as a
parameter to record that no assignment in the script uses it. -/
def scriptPreludeEnv (snp_data_file_arg output_file_arg tad_boundary_arg : String) :
    List (String × String) :=
  [("snp_data_file", snp_data_file_arg),
   ("output_file", output_file_arg),
   ("output_nearest_gene_file", output_nearest_gene_file output_file_arg)]

/-- `index_file = "GENE_index_hg19_" + tad_cell + ".tsv.bz2"`: look up the
name `tad_cell` in the module environment; an unbound name is a `NameError`. -/
def index_file (env : List (String × String)) : Except String String :=
  match env.lookup "tad_cell" with
  | some tad_cell => Except.ok ("GENE_index_hg19_" ++ tad_cell ++ ".tsv.bz2")
  | none => Except.error "NameError: name 'tad_cell' is not defined"

/-! ## Spec-worded variants of the chromosome comparison (for the
refinement claim about the direction of the prefix stripping) -/

/-- The TAD-membership lookup as worded by the spec sentence "subset of rows
where chromosome (with a fixed prefix stripped) equals the SNP's chromosome":
the prefix (first three characters) is stripped from the TABLE's chromosome
field and the result is compared with the SNP's chromosome field unchanged. -/
def assign_spec_table_stripped (s : SnpRow) (T : List TadGeneRow) : List TadGeneRow :=
  T.filter fun r =>
    (r.chromosome.drop 3 == s.chrom) && decide (r.TAD_start ≤ s.position) &&
      decide (r.TAD_end > s.position)

/-- The amended wording: the prefix (first three characters) is stripped from
the SNP's chromosome field and the result is compared with the table's
chromosome field unchanged. -/
def assign_spec_snp_stripped (s : SnpRow) (T : List TadGeneRow) : List TadGeneRow :=
  T.filter fun r =>
    (r.chromosome == s.chrom.drop 3) && decide (r.TAD_start ≤ s.position) &&
      decide (r.TAD_end > s.position)

/-! ## Lemmas about the stable sort of distance rows -/

theorem insertDist_perm (x : DistRow) (l : List DistRow) :
    (insertDist x l).Perm (x :: l) := by
  induction l with
  | nil => simp [insertDist]
  | cons y ys ih =>
    by_cases h : x.2.1 ≤ y.2.1
    · simp [insertDist, h]
    · simp only [insertDist, h, if_false]
      exact ((ih.cons y).trans (List.Perm.swap x y ys))

theorem sortDist_perm (l : List DistRow) : (sortDist l).Perm l := by
  induction l with
  | nil => simp [sortDist]
  | cons x xs ih =>
    exact (insertDist_perm x (sortDist xs)).trans (ih.cons x)

theorem mem_insertDist {z x : DistRow} {l : List DistRow} :
    z ∈ insertDist x l ↔ z = x ∨ z ∈ l :=
  ((insertDist_perm x l).mem_iff).trans (by simp)

/-- Sortedness by the start-distance component. -/
def SortedD (l : List DistRow) : Prop :=
  l.Pairwise fun a b => a.2.1 ≤ b.2.1

theorem sortedD_insertDist {x : DistRow} {l : List DistRow} (h : SortedD l) :
    SortedD (insertDist x l) := by
  induction l with
  | nil => simp [insertDist, SortedD]
  | cons y ys ih =>
    rcases (List.pairwise_cons.mp h) with ⟨hy, hys⟩
    by_cases hxy : x.2.1 ≤ y.2.1
    · simp only [insertDist, hxy, if_true]
      refine List.pairwise_cons.mpr ⟨?_, h⟩
      intro z hz
      rcases List.mem_cons.mp hz with rfl | hz
      · exact hxy
      · exact le_trans hxy (hy z hz)
    · simp only [insertDist, hxy, if_false]
      refine List.pairwise_cons.mpr ⟨?_, ih hys⟩
      intro z hz
      rcases mem_insertDist.mp hz with rfl | hz
      · exact le_of_lt (lt_of_not_le hxy)
      · exact hy z hz

theorem sortedD_sortDist (l : List DistRow) : SortedD (sortDist l) := by
  induction l with
  | nil => simp [sortDist, SortedD]
  | cons x xs ih => exact sortedD_insertDist ih

/-- The first element, scanning from the left, that satisfies `q` and whose
start-distance is not beaten strictly by a later `q`-element: the leftmost
`q`-element of minimal start distance. -/
def leftmostBest (q : DistRow → Bool) : List DistRow → Option DistRow
  | [] => none
  | x :: l =>
    match leftmostBest q l with
    | none => if q x then some x else none
    | some u => if q x then (if u.2.1 < x.2.1 then some u else some x) else some u

theorem leftmostBest_cons (q : DistRow → Bool) (x : DistRow) (l : List DistRow) :
    leftmostBest q (x :: l) =
      match leftmostBest q l with
      | none => if q x then some x else none
      | some u => if q x then (if u.2.1 < x.2.1 then some u else some x) else some u := rfl

theorem leftmostBest_cons_none {q : DistRow → Bool} {l : List DistRow} {x : DistRow}
    (hl : leftmostBest q l = none) :
    leftmostBest q (x :: l) = if q x then some x else none := by
  rw [leftmostBest_cons, hl]

theorem leftmostBest_cons_some {q : DistRow → Bool} {l : List DistRow} {x v : DistRow}
    (hl : leftmostBest q l = some v) :
    leftmostBest q (x :: l) =
      if q x then (if v.2.1 < x.2.1 then some v else some x) else some v := by
  rw [leftmostBest_cons, hl]

theorem leftmostBest_eq_none {q : DistRow → Bool} {l : List DistRow} :
    leftmostBest q l = none ↔ ∀ u ∈ l, ¬ q u = true := by
  induction l with
  | nil => simp [leftmostBest]
  | cons x l ih =>
    constructor
    · intro h
      cases hl : leftmostBest q l with
      | none =>
        rw [leftmostBest_cons_none hl] at h
        intro u hu
        rcases List.mem_cons.mp hu with rfl | hu
        · intro hq; rw [if_pos hq] at h; exact Option.some_ne_none _ h
        · exact ih.mp hl u hu
      | some v =>
        rw [leftmostBest_cons_some hl] at h
        exfalso
        by_cases hx : q x = true
        · rw [if_pos hx] at h
          by_cases hvx : v.2.1 < x.2.1
          · rw [if_pos hvx] at h; exact Option.some_ne_none _ h
          · rw [if_neg hvx] at h; exact Option.some_ne_none _ h
        · rw [if_neg hx] at h; exact Option.some_ne_none _ h
    · intro hall
      have hx : ¬ q x = true := hall x (List.mem_cons_self x l)
      have hl : leftmostBest q l = none :=
        ih.mpr fun u hu => hall u (List.mem_cons_of_mem x hu)
      rw [leftmostBest_cons_none hl, if_neg hx]

theorem leftmostBest_eq_some {q : DistRow → Bool} {l : List DistRow} :
    (∃ u ∈ l, q u = true) → ∃ t, leftmostBest q l = some t := by
  intro h
  cases ht : leftmostBest q l with
  | none =>
    rcases h with ⟨u, hu, hq⟩
    exact absurd hq (leftmostBest_eq_none.mp ht u hu)
  | some t => exact ⟨t, rfl⟩

/-- Key equivalence: the first row of the start-sorted frame that satisfies
`q` is the leftmost `q`-row of minimal start distance of the unsorted list.
The insertion step needs the already-sorted tail. -/
theorem head_filter_insertDist {q : DistRow → Bool} {x : DistRow} {S : List DistRow}
    (hS : SortedD S) :
    ((insertDist x S).filter q).head? =
      match (S.filter q).head? with
      | none => if q x then some x else none
      | some u => if q x then (if u.2.1 < x.2.1 then some u else some x) else some u := by
  induction S with
  | nil =>
    by_cases hx : q x = true <;> simp [insertDist, List.filter, hx]
  | cons y S' ih =>
    rcases List.pairwise_cons.mp hS with ⟨hy, hS'⟩
    by_cases hxy : x.2.1 ≤ y.2.1
    · -- x inserted in front: x :: y :: S'
      simp only [insertDist, hxy, if_true]
      by_cases hx : q x = true
      · have hl : ((x :: y :: S').filter q).head? = some x := by
          simp [List.filter_cons, hx]
        rw [hl]
        cases hu : ((y :: S').filter q).head? with
        | none => simp [hx]
        | some u =>
          have hu_mem : u ∈ (y :: S').filter q :=
            List.mem_of_mem_head? (Option.mem_def.mpr hu)
          have hu_mem' : u ∈ y :: S' := (List.mem_filter.mp hu_mem).1
          have hyu : y.2.1 ≤ u.2.1 := by
            rcases List.mem_cons.mp hu_mem' with rfl | hmem
            · exact le_refl _
            · exact hy u hmem
          have hnot : ¬ u.2.1 < x.2.1 := not_lt.mpr (le_trans hxy hyu)
          simp [hx, hnot]
      · have hl : ((x :: y :: S').filter q).head? = ((y :: S').filter q).head? := by
          simp [List.filter_cons, hx]
        rw [hl]
        cases hu : ((y :: S').filter q).head? with
        | none => simp [hx]
        | some u => simp [hx]
    · -- x inserted further right: y :: insertDist x S'
      simp only [insertDist, hxy, if_false]
      by_cases hqy : q y = true
      · -- y keeps the head in both frames
        have hylt : y.2.1 < x.2.1 := lt_of_not_le hxy
        have h1 : ((y :: insertDist x S').filter q).head? = some y := by
          simp [List.filter_cons, hqy]
        have h2 : ((y :: S').filter q).head? = some y := by
          simp [List.filter_cons, hqy]
        rw [h1, h2]
        by_cases hx : q x = true <;> simp [hx, hylt]
      · have h1 : ((y :: insertDist x S').filter q).head? = ((insertDist x S').filter q).head? := by
          simp [List.filter_cons, hqy]
        have h2 : ((y :: S').filter q).head? = (S'.filter q).head? := by
          simp [List.filter_cons, hqy]
        rw [h1, h2, ih hS']

theorem head_filter_sortDist (q : DistRow → Bool) (l : List DistRow) :
    ((sortDist l).filter q).head? = leftmostBest q l := by
  induction l with
  | nil => rfl
  | cons x l ih =>
    show ((insertDist x (sortDist l)).filter q).head? = _
    rw [head_filter_insertDist (sortedD_sortDist l), ih]
    rfl

/-- Strictly increasing row labels. -/
def IdxInc (l : List DistRow) : Prop := l.Pairwise fun a b => a.1 < b.1

/-- What `leftmostBest` selects: a `q`-element, of minimal start distance
among the `q`-elements, with the least label among `q`-elements of equal start
distance (when the labels are strictly increasing along the list). -/
theorem leftmostBest_spec {q : DistRow → Bool} {l : List DistRow} {t : DistRow}
    (hIdx : IdxInc l) (ht : leftmostBest q l = some t) :
    t ∈ l ∧ q t = true ∧ (∀ u ∈ l, q u = true → t.2.1 ≤ u.2.1) ∧
      (∀ u ∈ l, q u = true → u.2.1 = t.2.1 → t.1 ≤ u.1) := by
  induction l generalizing t with
  | nil => cases ht
  | cons x l ih =>
    rcases List.pairwise_cons.mp hIdx with ⟨hx_lt, hIdx'⟩
    cases hl : leftmostBest q l with
    | none =>
      rw [leftmostBest_cons_none hl] at ht
      by_cases hx : q x = true
      · rw [if_pos hx] at ht
        obtain rfl := Option.some.inj ht
        have hnone := leftmostBest_eq_none.mp hl
        refine ⟨List.mem_cons_self _ _, hx, ?_, ?_⟩
        · intro u hu hq
          rcases List.mem_cons.mp hu with rfl | hu
          · exact le_refl _
          · exact absurd hq (hnone u hu)
        · intro u hu hq _
          rcases List.mem_cons.mp hu with rfl | hu
          · exact le_refl _
          · exact absurd hq (hnone u hu)
      · rw [if_neg hx] at ht; cases ht
    | some v =>
      rw [leftmostBest_cons_some hl] at ht
      rcases ih hIdx' hl with ⟨hv_mem, hv_q, hv_min, hv_idx⟩
      by_cases hx : q x = true
      · rw [if_pos hx] at ht
        by_cases hvx : v.2.1 < x.2.1
        · rw [if_pos hvx] at ht
          obtain rfl := Option.some.inj ht
          refine ⟨List.mem_cons_of_mem x hv_mem, hv_q, ?_, ?_⟩
          · intro u hu hq
            rcases List.mem_cons.mp hu with rfl | hu
            · exact le_of_lt hvx
            · exact hv_min u hu hq
          · intro u hu hq heq
            rcases List.mem_cons.mp hu with rfl | hu
            · exact absurd (heq ▸ hvx) (lt_irrefl _)
            · exact hv_idx u hu hq heq
        · rw [if_neg hvx] at ht
          obtain rfl := Option.some.inj ht
          have hxv := le_of_not_lt hvx
          refine ⟨List.mem_cons_self _ _, hx, ?_, ?_⟩
          · intro u hu hq
            rcases List.mem_cons.mp hu with rfl | hu
            · exact le_refl _
            · exact le_trans hxv (hv_min u hu hq)
          · intro u hu hq heq
            rcases List.mem_cons.mp hu with rfl | hu
            · exact le_refl _
            · exact le_of_lt (hx_lt u hu)
      · rw [if_neg hx] at ht
        obtain rfl := Option.some.inj ht
        refine ⟨List.mem_cons_of_mem x hv_mem, hv_q, ?_, ?_⟩
        · intro u hu hq
          rcases List.mem_cons.mp hu with rfl | hu
          · exact absurd hq hx
          · exact hv_min u hu hq
        · intro u hu hq heq
          rcases List.mem_cons.mp hu with rfl | hu
          · exact absurd hq hx
          · exact hv_idx u hu hq heq

/-! ## Lemmas about `natMin` and `dist_df_min` -/

theorem natMin_cons (x : Nat) (l : List Nat) :
    natMin (x :: l) =
      match natMin l with
      | none => some x
      | some m => some (min x m) := rfl

theorem natMin_cons_none {x : Nat} {l : List Nat} (hl : natMin l = none) :
    natMin (x :: l) = some x := by
  rw [natMin_cons, hl]

theorem natMin_cons_some {x v : Nat} {l : List Nat} (hl : natMin l = some v) :
    natMin (x :: l) = some (min x v) := by
  rw [natMin_cons, hl]

theorem natMin_eq_none {l : List Nat} : natMin l = none ↔ l = [] := by
  cases l with
  | nil => simp [natMin]
  | cons x l =>
    constructor
    · intro h
      cases hl : natMin l with
      | none => rw [natMin_cons_none hl] at h; cases h
      | some v => rw [natMin_cons_some hl] at h; cases h
    · intro h; cases h

theorem natMin_mem {l : List Nat} {m : Nat} (h : natMin l = some m) : m ∈ l := by
  induction l generalizing m with
  | nil => cases h
  | cons x l ih =>
    cases hl : natMin l with
    | none =>
      rw [natMin_cons_none hl] at h
      obtain rfl := Option.some.inj h
      exact List.mem_cons_self _ _
    | some v =>
      rw [natMin_cons_some hl] at h
      obtain rfl := Option.some.inj h
      rcases min_choice x v with he | he
      · rw [he]; exact List.mem_cons_self _ _
      · rw [he]; exact List.mem_cons_of_mem x (ih hl)

theorem natMin_le {l : List Nat} {m : Nat} (h : natMin l = some m) :
    ∀ x ∈ l, m ≤ x := by
  induction l generalizing m with
  | nil => cases h
  | cons x l ih =>
    intro y hy
    cases hl : natMin l with
    | none =>
      rw [natMin_cons_none hl] at h
      obtain rfl := Option.some.inj h
      rcases List.mem_cons.mp hy with rfl | hy
      · exact le_refl _
      · rw [natMin_eq_none.mp hl] at hy; cases hy
    | some v =>
      rw [natMin_cons_some hl] at h
      obtain rfl := Option.some.inj h
      rcases List.mem_cons.mp hy with rfl | hy
      · exact Nat.min_le_left _ _
      · exact le_trans (Nat.min_le_right _ _) (ih hl y hy)

theorem natMin_isSome {l : List Nat} (h : l ≠ []) : ∃ m, natMin l = some m := by
  cases hl : natMin l with
  | none => exact absurd (natMin_eq_none.mp hl) h
  | some m => exact ⟨m, rfl⟩

/-! ## Lemmas about the enumeration and the distance rows -/

theorem mem_enumRows {i : Nat} {r : TadGeneRow} :
    ∀ {l : List TadGeneRow} {n : Nat},
      (i, r) ∈ enumRows n l ↔ ∃ j, i = n + j ∧ l.get? j = some r := by
  intro l
  induction l with
  | nil =>
    intro n
    simp [enumRows]
  | cons a l ih =>
    intro n
    simp only [enumRows, List.mem_cons, Prod.mk.injEq, ih]
    constructor
    · rintro (⟨rfl, rfl⟩ | ⟨j, rfl, hj⟩)
      · exact ⟨0, by simp⟩
      · exact ⟨j + 1, by omega, by simpa using hj⟩
    · rintro ⟨j, rfl, hj⟩
      cases j with
      | zero =>
        left
        simp only [List.get?_cons_zero, Option.some.injEq] at hj
        exact ⟨by omega, hj.symm⟩
      | succ j =>
        right
        exact ⟨j, by omega, by simpa using hj⟩

theorem lower_bound_enumRows {n : Nat} :
    ∀ {l : List TadGeneRow} {z : Nat × TadGeneRow}, z ∈ enumRows n l → n ≤ z.1 := by
  intro l
  induction l generalizing n with
  | nil => intro z hz; cases hz
  | cons a l ih =>
    intro z hz
    rcases List.mem_cons.mp hz with rfl | hz
    · exact le_refl _
    · exact le_trans (Nat.le_succ n) (ih hz)

theorem pairwise_enumRows (n : Nat) (l : List TadGeneRow) :
    (enumRows n l).Pairwise fun a b => a.1 < b.1 := by
  induction l generalizing n with
  | nil => exact List.Pairwise.nil
  | cons a l ih =>
    refine List.pairwise_cons.mpr ⟨?_, ih (n + 1)⟩
    intro z hz
    exact lt_of_lt_of_le (Nat.lt_succ_self n) (lower_bound_enumRows hz)

/-- Structure of the distance rows: one triple per protein-coding row,
labelled with the row's position in `A`. -/
theorem mem_distRows {p : Int} {A : List TadGeneRow} {t : DistRow} :
    t ∈ distRows p A ↔
      ∃ i r, A.get? i = some r ∧ r.gene_type = "protein_coding" ∧
        t = (i, snpDist p r.start, snpDist p r.stop) := by
  simp only [distRows, protein_coding_rows, List.mem_map, List.mem_filter, beq_iff_eq]
  constructor
  · rintro ⟨⟨i, r⟩, ⟨hmem, htype⟩, rfl⟩
    rcases mem_enumRows.mp hmem with ⟨j, hij, hget⟩
    simp only [Nat.zero_add] at hij
    subst hij
    exact ⟨i, r, hget, htype, rfl⟩
  · rintro ⟨i, r, hget, htype, rfl⟩
    exact ⟨(i, r), ⟨mem_enumRows.mpr ⟨i, by simp, hget⟩, htype⟩, rfl⟩

theorem idxInc_distRows (p : Int) (A : List TadGeneRow) : IdxInc (distRows p A) := by
  unfold IdxInc distRows
  rw [List.pairwise_map]
  exact (pairwise_enumRows 0 A).sublist (List.filter_sublist _)

/-! ## Unfolding equations for the selection -/

theorem near_gene_idx_list_eq {p : Int} {A : List TadGeneRow} {m : Nat}
    (hm : dist_df_min (dist_df p A) = some m) :
    near_gene_idx_list p A =
      ((dist_df p A).filter fun t => (t.2.1 == m) || (t.2.2 == m)).map fun t => t.1 := by
  unfold near_gene_idx_list
  rw [hm]

theorem near_gene_idx_list_eq_nil {p : Int} {A : List TadGeneRow}
    (hm : dist_df_min (dist_df p A) = none) :
    near_gene_idx_list p A = [] := by
  unfold near_gene_idx_list
  rw [hm]

theorem nearestGeneName_of_head {p : Int} {A : List TadGeneRow} {i : Nat} {r : TadGeneRow}
    (hh : (near_gene_idx_list p A).head? = some i) (hr : A.get? i = some r) :
    nearestGeneName p A = r.gene_name := by
  unfold nearestGeneName
  rw [hh]
  show (match A.get? i with | some r => r.gene_name | none => "") = r.gene_name
  rw [hr]

theorem nearestGeneName_of_no_head {p : Int} {A : List TadGeneRow}
    (hh : (near_gene_idx_list p A).head? = none) :
    nearestGeneName p A = "" := by
  unfold nearestGeneName
  rw [hh]

/-- Central characterization of the nearest-gene selection: when the matched
set `A` contains a protein-coding row, the selection yields a label `i` and a
protein-coding row `r` of `A` such that `r`'s name is reported, `r` attains
the global minimum `m` of all start/stop distances of protein-coding rows,
every protein-coding row has both distances at least `m`, and among the rows
attaining `m` the selected row has the smallest start distance, with ties on
the start distance resolved in favour of the smallest label. -/
theorem nearest_selection_spec (p : Int) (A : List TadGeneRow)
    (h : ∃ r ∈ A, r.gene_type = "protein_coding") :
    ∃ m i r,
      dist_df_min (dist_df p A) = some m ∧
      (near_gene_idx_list p A).head? = some i ∧
      A.get? i = some r ∧
      r.gene_type = "protein_coding" ∧
      nearestGeneName p A = r.gene_name ∧
      (snpDist p r.start = m ∨ snpDist p r.stop = m) ∧
      (∀ j g, A.get? j = some g → g.gene_type = "protein_coding" →
          m ≤ snpDist p g.start ∧ m ≤ snpDist p g.stop) ∧
      (∀ j g, A.get? j = some g → g.gene_type = "protein_coding" →
          (snpDist p g.start = m ∨ snpDist p g.stop = m) →
          snpDist p r.start ≤ snpDist p g.start ∧
            (snpDist p g.start = snpDist p r.start → i ≤ j)) := by
  -- the distance frame is non-empty
  obtain ⟨r0, hr0A, hr0pc⟩ := h
  obtain ⟨j0, hj0⟩ := List.mem_iff_get?.mp hr0A
  have hD0 : (j0, snpDist p r0.start, snpDist p r0.stop) ∈ distRows p A :=
    mem_distRows.mpr ⟨j0, r0, hj0, hr0pc, rfl⟩
  have hDne : distRows p A ≠ [] := by
    intro hnil; rw [hnil] at hD0; cases hD0
  have hperm : (sortDist (distRows p A)).Perm (distRows p A) := sortDist_perm _
  have hSne : sortDist (distRows p A) ≠ [] := by
    intro hnil
    exact hDne ((hnil ▸ hperm).symm.eq_nil)
  -- the two column minima exist
  obtain ⟨m1, hm1⟩ := natMin_isSome (l := (sortDist (distRows p A)).map fun t => t.2.1)
    (by simpa [List.map_eq_nil_iff] using hSne)
  obtain ⟨m2, hm2⟩ := natMin_isSome (l := (sortDist (distRows p A)).map fun t => t.2.2)
    (by simpa [List.map_eq_nil_iff] using hSne)
  have hmin : dist_df_min (dist_df p A) = some (min m1 m2) := by
    unfold dist_df_min dist_df
    rw [hm1, hm2]
  -- every distance of a protein-coding row is at least the global minimum
  have hlb : ∀ t ∈ distRows p A, min m1 m2 ≤ t.2.1 ∧ min m1 m2 ≤ t.2.2 := by
    intro t ht
    have htS : t ∈ sortDist (distRows p A) := hperm.mem_iff.mpr ht
    exact ⟨le_trans (Nat.min_le_left _ _) (natMin_le hm1 _ (List.mem_map_of_mem _ htS)),
           le_trans (Nat.min_le_right _ _) (natMin_le hm2 _ (List.mem_map_of_mem _ htS))⟩
  -- the global minimum is attained
  have hach : ∃ u ∈ distRows p A,
      ((u.2.1 == min m1 m2) || (u.2.2 == min m1 m2)) = true := by
    rcases min_choice m1 m2 with he | he
    · rcases List.mem_map.mp (natMin_mem hm1) with ⟨u, huS, hu1⟩
      exact ⟨u, hperm.mem_iff.mp huS, by simp [hu1, he]⟩
    · rcases List.mem_map.mp (natMin_mem hm2) with ⟨u, huS, hu2⟩
      exact ⟨u, hperm.mem_iff.mp huS, by simp [hu2, he]⟩
  obtain ⟨tstar, htstar⟩ :=
    leftmostBest_eq_some (q := fun t => (t.2.1 == min m1 m2) || (t.2.2 == min m1 m2)) hach
  have hhead : ((sortDist (distRows p A)).filter
      fun t => (t.2.1 == min m1 m2) || (t.2.2 == min m1 m2)).head? = some tstar := by
    rw [head_filter_sortDist]; exact htstar
  have hhead_idx : (near_gene_idx_list p A).head? = some tstar.1 := by
    rw [near_gene_idx_list_eq hmin]
    show (((sortDist (distRows p A)).filter
      fun t => (t.2.1 == min m1 m2) || (t.2.2 == min m1 m2)).map fun t => t.1).head? = _
    rw [List.head?_map, hhead]
    rfl
  obtain ⟨htD, htq, htmin, httie⟩ := leftmostBest_spec (idxInc_distRows p A) htstar
  obtain ⟨i, r, hget, hpc, htr⟩ := mem_distRows.mp htD
  subst htr
  refine ⟨min m1 m2, i, r, hmin, hhead_idx, hget, hpc,
    nearestGeneName_of_head hhead_idx hget, ?_, ?_, ?_⟩
  · simpa using htq
  · intro j g hj hgpc
    exact hlb _ (mem_distRows.mpr ⟨j, g, hj, hgpc, rfl⟩)
  · intro j g hj hgpc hgach
    have hu : (j, snpDist p g.start, snpDist p g.stop) ∈ distRows p A :=
      mem_distRows.mpr ⟨j, g, hj, hgpc, rfl⟩
    have huq : ((snpDist p g.start == min m1 m2) || (snpDist p g.stop == min m1 m2)) = true := by
      simpa using hgach
    exact ⟨htmin _ hu huq, fun he => httie _ hu huq he⟩

/-- When the matched set contains no protein-coding row, the distance frame is
empty and the reported nearest gene is the empty string. -/
theorem nearestGeneName_no_pc {p : Int} {A : List TadGeneRow}
    (h : ∀ r ∈ A, r.gene_type ≠ "protein_coding") :
    nearestGeneName p A = "" := by
  have hD : distRows p A = [] := by
    rw [List.eq_nil_iff_forall_not_mem]
    intro t ht
    obtain ⟨i, r, hget, hpc, _⟩ := mem_distRows.mp ht
    exact h r (List.get?_mem hget) hpc
  have hS : dist_df p A = [] := by
    unfold dist_df
    rw [hD]
    rfl
  have hmin : dist_df_min (dist_df p A) = none := by rw [hS]; rfl
  apply nearestGeneName_of_no_head
  rw [near_gene_idx_list_eq_nil hmin]
  rfl

/-! ## Structure of the double loop -/

/-- When the TAD assignment is non-empty, the SNP step appends the annotated
match rows and one nearest-gene row. -/
theorem processSnp_of_match {T : List TadGeneRow} {s : SnpRow} (g : String)
    (acc : List ResultRow × List NearestRow)
    (h : assign_custom_snp_to_tad s T ≠ []) :
    processSnp T g s acc =
      (acc.1 ++ (assign_custom_snp_to_tad s T).map fun r => ⟨r, s.snp, g⟩,
       acc.2 ++ [⟨nearestGeneName s.position (assign_custom_snp_to_tad s T), s.snp, g⟩]) := by
  have hlen : (assign_custom_snp_to_tad s T).length ≠ 0 := by
    simpa [List.length_eq_zero] using h
  simp [processSnp, hlen]

/-- When the TAD assignment is empty, the SNP step leaves both accumulators
unchanged. -/
theorem processSnp_of_no_match {T : List TadGeneRow} {s : SnpRow} (g : String)
    (acc : List ResultRow × List NearestRow)
    (h : assign_custom_snp_to_tad s T = []) :
    processSnp T g s acc = acc := by
  simp [processSnp, h]

/-- The nearest-gene row contributed by one SNP, `none` when the SNP matches
no TAD row. -/
def nearestRowOf (T : List TadGeneRow) (g : String) (s : SnpRow) : Option NearestRow :=
  if (assign_custom_snp_to_tad s T).length ≠ 0 then
    some ⟨nearestGeneName s.position (assign_custom_snp_to_tad s T), s.snp, g⟩
  else none

theorem foldl_processSnp (T : List TadGeneRow) (g : String) :
    ∀ (l : List SnpRow) (acc : List ResultRow × List NearestRow),
      l.foldl (fun a s => processSnp T g s a) acc =
        (acc.1 ++ l.flatMap fun s => (assign_custom_snp_to_tad s T).map fun r => ⟨r, s.snp, g⟩,
         acc.2 ++ l.filterMap (nearestRowOf T g)) := by
  intro l
  induction l with
  | nil => intro acc; simp
  | cons s l ih =>
    intro acc
    rw [List.foldl_cons, ih]
    by_cases h : (assign_custom_snp_to_tad s T).length ≠ 0
    · have hps := processSnp_of_match (T := T) (s := s) g acc
        (by simpa [← List.length_eq_zero] using h)
      rw [hps]
      simp [List.flatMap_cons, List.filterMap_cons, nearestRowOf, h, List.append_assoc]
    · have hnil : assign_custom_snp_to_tad s T = [] := by
        rw [← List.length_eq_zero]
        simpa using h
      rw [processSnp_of_no_match g acc hnil]
      simp [List.flatMap_cons, List.filterMap_cons, nearestRowOf, hnil]

theorem foldl_groups (T : List TadGeneRow) (snps : List SnpRow) :
    ∀ (gs : List String) (acc : List ResultRow × List NearestRow),
      gs.foldl (fun acc g => (snps.filter fun s => s.group == g).foldl
          (fun a s => processSnp T g s a) acc) acc =
        (acc.1 ++ gs.flatMap fun g => (snps.filter fun s => s.group == g).flatMap fun s =>
            (assign_custom_snp_to_tad s T).map fun r => ⟨r, s.snp, g⟩,
         acc.2 ++ gs.flatMap fun g =>
            (snps.filter fun s => s.group == g).filterMap (nearestRowOf T g)) := by
  intro gs
  induction gs with
  | nil => intro acc; simp
  | cons g gs ih =>
    intro acc
    rw [List.foldl_cons, foldl_processSnp, ih]
    simp [List.flatMap_cons, List.append_assoc]

/-- Closed form of the whole double loop. -/
theorem runPipeline_eq (T : List TadGeneRow) (snps : List SnpRow) :
    runPipeline T snps =
      ((uniqueFirst (snps.map fun s => s.group)).flatMap fun g =>
          (snps.filter fun s => s.group == g).flatMap fun s =>
            (assign_custom_snp_to_tad s T).map fun r => ⟨r, s.snp, g⟩,
       (uniqueFirst (snps.map fun s => s.group)).flatMap fun g =>
          (snps.filter fun s => s.group == g).filterMap (nearestRowOf T g)) := by
  unfold runPipeline
  rw [foldl_groups]
  simp

/-! ## Counting lemmas for the group partition -/

theorem uniqueFirst_nil : uniqueFirst [] = [] := by
  simp [uniqueFirst]

theorem uniqueFirst_cons (a : String) (l : List String) :
    uniqueFirst (a :: l) = a :: uniqueFirst (l.filter fun b => !(b == a)) := by
  simp [uniqueFirst]

theorem mem_of_mem_uniqueFirst :
    ∀ (n : Nat) (l : List String), l.length ≤ n → ∀ b ∈ uniqueFirst l, b ∈ l := by
  intro n
  induction n with
  | zero =>
    intro l hl b hb
    rw [List.length_eq_zero.mp (Nat.le_zero.mp hl), uniqueFirst_nil] at hb
    cases hb
  | succ n ih =>
    intro l hl b hb
    cases l with
    | nil => rw [uniqueFirst_nil] at hb; cases hb
    | cons a l' =>
      rw [uniqueFirst_cons] at hb
      rcases List.mem_cons.mp hb with rfl | hb
      · exact List.mem_cons_self _ _
      · have hlen : (l'.filter fun c => !(c == a)).length ≤ n :=
          le_trans (List.length_filter_le _ _) (Nat.le_of_succ_le_succ hl)
        exact List.mem_cons_of_mem a (List.mem_filter.mp (ih _ hlen b hb)).1

/-- Splitting a filtered count along a boolean condition. -/
theorem length_filter_split {α : Type} (P e : α → Bool) (l : List α) :
    (l.filter P).length =
      (l.filter fun s => P s && e s).length + (l.filter fun s => P s && !(e s)).length := by
  induction l with
  | nil => rfl
  | cons a l ih =>
    by_cases hP : P a = true
    · by_cases he : e a = true <;>
        simp [List.filter_cons, hP, he, ih] <;> omega
    · simp [List.filter_cons, hP, ih]

/-- The partition identity: summing the per-group counts of a predicate over
the groups in order of first appearance recovers the total count. -/
theorem sum_partition (P : SnpRow → Bool) :
    ∀ (n : Nat) (l : List SnpRow), l.length ≤ n →
      ((uniqueFirst (l.map fun s => s.group)).map
          fun g => (l.filter fun s => P s && (s.group == g)).length).sum
        = (l.filter P).length := by
  intro n
  induction n with
  | zero =>
    intro l hl
    rw [List.length_eq_zero.mp (Nat.le_zero.mp hl)]
    simp [uniqueFirst_nil]
  | succ n ih =>
    intro l hl
    cases l with
    | nil => simp [uniqueFirst_nil]
    | cons a l' =>
      have hcomm : ((l'.map fun s => s.group).filter fun b => !(b == a.group))
          = (l'.filter fun s => !(s.group == a.group)).map fun s => s.group := by
        rw [List.filter_map]
        rfl
      rw [List.map_cons, uniqueFirst_cons, hcomm, List.map_cons, List.sum_cons]
      have hlen2 : (l'.filter fun s => !(s.group == a.group)).length ≤ n :=
        le_trans (List.length_filter_le _ _) (Nat.le_of_succ_le_succ hl)
      -- the head group's count over `a :: l'`
      have hhead : ((a :: l').filter fun s => P s && (s.group == a.group)).length
          = (if P a then 1 else 0) + (l'.filter fun s => P s && (s.group == a.group)).length := by
        by_cases hP : P a = true <;> simp [List.filter_cons, hP] <;> omega
      -- remaining groups never contain `a.group`, so their counts over
      -- `a :: l'` agree with their counts over the filtered tail
      have htail : ∀ g' ∈ uniqueFirst ((l'.filter fun s => !(s.group == a.group)).map
            fun s => s.group),
          ((a :: l').filter fun s => P s && (s.group == g')).length
            = ((l'.filter fun s => !(s.group == a.group)).filter
                fun s => P s && (s.group == g')).length := by
        intro g' hg'
        have hg'mem : g' ∈ (l'.filter fun s => !(s.group == a.group)).map fun s => s.group :=
          mem_of_mem_uniqueFirst _ _ (le_refl _) g' hg'
        obtain ⟨s', hs', rfl⟩ := List.mem_map.mp hg'mem
        have hne : ¬ (a.group == s'.group) = true := by
          have := (List.mem_filter.mp hs').2
          simp only [beq_iff_eq, Bool.not_eq_true', beq_eq_false_iff_ne] at this ⊢
          exact fun he => this he.symm
        rw [List.filter_filter]
        have hstep : ((a :: l').filter fun s => P s && (s.group == s'.group))
            = l'.filter fun s => P s && (s.group == s'.group) := by
          simp [List.filter_cons, hne]
        rw [hstep]
        congr 1
        apply List.filter_congr
        intro s _
        by_cases hsg : (s.group == s'.group) = true
        · have : ¬ (s.group == a.group) = true := by
            simp only [beq_iff_eq] at hsg ⊢
            intro he
            apply hne
            simp only [beq_iff_eq]
            rw [← he, hsg]
          simp [hsg, this]
        · simp [hsg]
      have hsplit := length_filter_split P (fun s => s.group == a.group) l'
      have hfinal : ((a :: l').filter P).length
          = (if P a then 1 else 0) + (l'.filter P).length := by
        by_cases hP : P a = true <;> simp [List.filter_cons, hP] <;> omega
      rw [List.map_congr_left htail, ih _ hlen2, List.filter_filter, hhead, hfinal, hsplit]
      exact Nat.add_assoc _ _ _

theorem length_flatMap {α β : Type} (f : α → List β) (l : List α) :
    (l.flatMap f).length = (l.map fun a => (f a).length).sum := by
  induction l with
  | nil => rfl
  | cons a l ih =>
    simp [List.flatMap_cons, List.map_cons, List.sum_cons, List.length_append, ih]

theorem length_filterMap_nearestRowOf (T : List TadGeneRow) (g : String) (l : List SnpRow) :
    (l.filterMap (nearestRowOf T g)).length
      = (l.filter fun s => decide (assign_custom_snp_to_tad s T ≠ [])).length := by
  induction l with
  | nil => rfl
  | cons s l ih =>
    by_cases h : assign_custom_snp_to_tad s T = []
    · have hrow : nearestRowOf T g s = none := by simp [nearestRowOf, h]
      simp [List.filterMap_cons, List.filter_cons, hrow, h, ih]
    · have hlen : (assign_custom_snp_to_tad s T).length ≠ 0 := by
        simpa [List.length_eq_zero] using h
      have hrow : nearestRowOf T g s =
          some ⟨nearestGeneName s.position (assign_custom_snp_to_tad s T), s.snp, g⟩ := by
        simp [nearestRowOf, hlen]
      simp [List.filterMap_cons, List.filter_cons, hrow, h, ih]

/-- The nearest-gene conclusion shared by the claims about the selection: some
protein-coding row of the matched set is reported and its distance is minimal
over all protein-coding rows of the matched set. -/
theorem nearest_min_over_matches (p : Int) (A : List TadGeneRow)
    (h : ∃ r ∈ A, r.gene_type = "protein_coding") :
    ∃ r ∈ A, r.gene_type = "protein_coding" ∧ nearestGeneName p A = r.gene_name ∧
      ∀ g ∈ A, g.gene_type = "protein_coding" → geneMinDist p r ≤ geneMinDist p g := by
  obtain ⟨m, i, r, _, _, hget, hpc, hname, hach, hbound, _⟩ := nearest_selection_spec p A h
  refine ⟨r, List.get?_mem hget, hpc, hname, ?_⟩
  intro g hg hgpc
  obtain ⟨j, hj⟩ := List.mem_iff_get?.mp hg
  have hb := hbound j g hj hgpc
  have hrb := hbound i r hget hpc
  have hrm : geneMinDist p r = m := by
    unfold geneMinDist
    apply le_antisymm
    · rcases hach with he | he
      · exact le_trans (Nat.min_le_left _ _) (le_of_eq he)
      · exact le_trans (Nat.min_le_right _ _) (le_of_eq he)
    · exact le_min hrb.1 hrb.2
  rw [hrm]
  exact le_min hb.1 hb.2

/-! ## Sample data

Concrete rows used by the witnesses; `rowEx`/`snpEx` follow the example in
the spec (TAD row `chrom=1, start=100, end=200`, protein-coding gene `A` at
`110..190`; SNP `chr1:150`). -/

def rowEx : TadGeneRow :=
  { chromosome := "1", TAD_start := 100, TAD_end := 200, TADidx := "7",
    gene_name := "A", gene_type := "protein_coding", start := 110, stop := 190,
    strand := "+", db := "hg19", type := "gene" }

def snpEx : SnpRow := { snp := "rs1", chrom := "chr1", position := 150, group := "g1" }

/-- Protein-coding row achieving the global minimum through its stop
coordinate only (`|140-150| = 10`, `|145-150| = 5`). -/
def rowTieA : TadGeneRow := { rowEx with gene_name := "A", start := 140, stop := 145 }

/-- Protein-coding row achieving the global minimum through its start
coordinate (`|155-150| = 5`, `|170-150| = 20`). -/
def rowTieB : TadGeneRow := { rowEx with gene_name := "B", start := 155, stop := 170 }

/-- A matched row that is not protein-coding. -/
def rowNC : TadGeneRow := { rowEx with gene_name := "N1", gene_type := "lincRNA" }

/-- A gene row in a second, overlapping TAD `[50, 300)`. -/
def rowOv : TadGeneRow :=
  { rowEx with
    TAD_start := 50
    TAD_end := 300
    TADidx := "8"
    gene_name := "C"
    start := 160
    stop := 180 }

/-! ## Claim theorems -/

/-- **C1**: for every SNP with chromosome `c` and integer position `p`, the
matched-gene set returned by `assign_custom_snp_to_tad` is exactly the set of
rows of the TAD-gene table whose chromosome matches `c` (via the code's
comparison, i.e. against `c` with its first three characters dropped) and
whose TAD interval contains `p` half-open (`TAD_start ≤ p` and `p < TAD_end`);
a SNP with `p = TAD_end` is excluded, and the result is empty when no row
satisfies the condition. -/
theorem tad_membership_halfopen_exact (s : SnpRow) (T : List TadGeneRow) :
    (∀ r, r ∈ assign_custom_snp_to_tad s T ↔
        r ∈ T ∧ r.chromosome = s.chrom.drop 3 ∧
          r.TAD_start ≤ s.position ∧ s.position < r.TAD_end) ∧
    (∀ r ∈ T, s.position = r.TAD_end → r ∉ assign_custom_snp_to_tad s T) ∧
    ((∀ r ∈ T, ¬ (r.chromosome = s.chrom.drop 3 ∧ r.TAD_start ≤ s.position ∧
        s.position < r.TAD_end)) → assign_custom_snp_to_tad s T = []) := by
  refine ⟨fun r => (mem_assign_iff s T r).trans Iff.rfl, ?_, ?_⟩
  · intro r _ heq hmem
    rcases (mem_assign_iff s T r).mp hmem with ⟨_, _, _, hlt⟩
    exact lt_irrefl _ (heq ▸ hlt)
  · intro hall
    rw [List.eq_nil_iff_forall_not_mem]
    intro r hmem
    rcases (mem_assign_iff s T r).mp hmem with ⟨hrT, hcond⟩
    exact hall r hrT hcond

theorem tad_membership_halfopen_exact_witness :
    (rowEx ∈ [rowEx] ∧ rowEx.chromosome = snpEx.chrom.drop 3 ∧
      rowEx.TAD_start ≤ snpEx.position ∧ snpEx.position < rowEx.TAD_end) ∧
    rowEx ∈ assign_custom_snp_to_tad snpEx [rowEx] ∧
    (rowEx ∈ [rowEx] ∧ (200 : Int) = rowEx.TAD_end) ∧
    rowEx ∉ assign_custom_snp_to_tad { snpEx with position := 200 } [rowEx] :=
  ⟨by decide,
   ((tad_membership_halfopen_exact snpEx [rowEx]).1 rowEx).mpr (by decide),
   by decide,
   (tad_membership_halfopen_exact { snpEx with position := 200 } [rowEx]).2.1 rowEx
     (by decide) (by decide)⟩

/-- **C2**: for every SNP whose matched set contains a protein-coding gene,
the reported nearest gene is the name of a protein-coding row of the matched
set whose `min(|start-p|, |stop-p|)` equals the minimum of that quantity over
all protein-coding rows of the matched set. -/
theorem nearest_gene_achieves_min (s : SnpRow) (T : List TadGeneRow)
    (h : ∃ r ∈ assign_custom_snp_to_tad s T, r.gene_type = "protein_coding") :
    ∃ r ∈ assign_custom_snp_to_tad s T,
      r.gene_type = "protein_coding" ∧
      nearestGeneName s.position (assign_custom_snp_to_tad s T) = r.gene_name ∧
      ∀ g ∈ assign_custom_snp_to_tad s T, g.gene_type = "protein_coding" →
        geneMinDist s.position r ≤ geneMinDist s.position g :=
  nearest_min_over_matches s.position (assign_custom_snp_to_tad s T) h

theorem nearest_gene_achieves_min_witness :
    (∃ r ∈ assign_custom_snp_to_tad snpEx [rowEx], r.gene_type = "protein_coding") ∧
    (∃ r ∈ assign_custom_snp_to_tad snpEx [rowEx],
      r.gene_type = "protein_coding" ∧
      nearestGeneName snpEx.position (assign_custom_snp_to_tad snpEx [rowEx]) = r.gene_name ∧
      ∀ g ∈ assign_custom_snp_to_tad snpEx [rowEx], g.gene_type = "protein_coding" →
        geneMinDist snpEx.position r ≤ geneMinDist snpEx.position g) :=
  ⟨by decide, nearest_gene_achieves_min snpEx [rowEx] (by decide)⟩

/-- **C3 counterexample**: with SNP `chr1:150` and matched protein-coding rows
`A` (`start=140, stop=145`) and `B` (`start=155, stop=170`), both rows achieve
the global minimum distance `5`, the earliest such row in input order is row
`0` (gene `A`), yet the script reports gene `B` — the first row of the
start-distance-sorted frame, not the first row in input order. -/
theorem nearest_tiebreak_counterexample :
    assign_custom_snp_to_tad snpEx [rowTieA, rowTieB] = [rowTieA, rowTieB] ∧
    dist_df_min (dist_df snpEx.position [rowTieA, rowTieB]) = some 5 ∧
    geneMinDist snpEx.position rowTieA = 5 ∧
    geneMinDist snpEx.position rowTieB = 5 ∧
    rowTieA.gene_name = "A" ∧
    nearestGeneName snpEx.position (assign_custom_snp_to_tad snpEx [rowTieA, rowTieB]) = "B" := by
  decide

/-- **C3 (amended)**: when several protein-coding matches achieve the same
global minimum distance `m`, the reported gene is the first row of the
start-distance-sorted frame achieving `m`: among the achieving rows the
selected row has the smallest `|start-p|`, and only among achieving rows of
equal `|start-p|` does the earliest row (smallest label, i.e. original input
position) win. -/
theorem nearest_tiebreak_rule (s : SnpRow) (T : List TadGeneRow)
    (h : ∃ r ∈ assign_custom_snp_to_tad s T, r.gene_type = "protein_coding") :
    ∃ m i r,
      dist_df_min (dist_df s.position (assign_custom_snp_to_tad s T)) = some m ∧
      (assign_custom_snp_to_tad s T).get? i = some r ∧
      r.gene_type = "protein_coding" ∧
      nearestGeneName s.position (assign_custom_snp_to_tad s T) = r.gene_name ∧
      (snpDist s.position r.start = m ∨ snpDist s.position r.stop = m) ∧
      (∀ j g, (assign_custom_snp_to_tad s T).get? j = some g →
          g.gene_type = "protein_coding" →
          (snpDist s.position g.start = m ∨ snpDist s.position g.stop = m) →
          snpDist s.position r.start ≤ snpDist s.position g.start ∧
            (snpDist s.position g.start = snpDist s.position r.start → i ≤ j)) := by
  obtain ⟨m, i, r, hmin, _, hget, hpc, hname, hach, _, htie⟩ :=
    nearest_selection_spec s.position (assign_custom_snp_to_tad s T) h
  exact ⟨m, i, r, hmin, hget, hpc, hname, hach, htie⟩

theorem nearest_tiebreak_rule_witness :
    (∃ r ∈ assign_custom_snp_to_tad snpEx [rowTieA, rowTieB],
      r.gene_type = "protein_coding") ∧
    (∃ m i r,
      dist_df_min (dist_df snpEx.position (assign_custom_snp_to_tad snpEx [rowTieA, rowTieB]))
        = some m ∧
      (assign_custom_snp_to_tad snpEx [rowTieA, rowTieB]).get? i = some r ∧
      r.gene_type = "protein_coding" ∧
      nearestGeneName snpEx.position (assign_custom_snp_to_tad snpEx [rowTieA, rowTieB])
        = r.gene_name ∧
      (snpDist snpEx.position r.start = m ∨ snpDist snpEx.position r.stop = m) ∧
      (∀ j g, (assign_custom_snp_to_tad snpEx [rowTieA, rowTieB]).get? j = some g →
          g.gene_type = "protein_coding" →
          (snpDist snpEx.position g.start = m ∨ snpDist snpEx.position g.stop = m) →
          snpDist snpEx.position r.start ≤ snpDist snpEx.position g.start ∧
            (snpDist snpEx.position g.start = snpDist snpEx.position r.start → i ≤ j))) :=
  ⟨by decide, nearest_tiebreak_rule snpEx [rowTieA, rowTieB] (by decide)⟩

/-- **C4 (code bug)**: the script's docstring says `--TAD_Boundary` names the
TAD cell whose index file is used, and `index_file` is built from a name
`tad_cell`, but no statement ever assigns `tad_cell` (and `args.TAD_Boundary`
is never read); evaluating `index_file` therefore raises `NameError` for every
argument combination, while binding `tad_cell` to a label `L` would produce
the intended `GENE_index_hg19_<L>.tsv.bz2`. -/
theorem tad_cell_never_bound (s o t L : String) :
    index_file (scriptPreludeEnv s o t) =
      Except.error "NameError: name 'tad_cell' is not defined" ∧
    index_file (("tad_cell", L) :: scriptPreludeEnv s o t) =
      Except.ok ("GENE_index_hg19_" ++ L ++ ".tsv.bz2") :=
  ⟨rfl, rfl⟩

/-- **C5**: a SNP with a non-empty matched set containing no protein-coding
row yields the empty string as its nearest gene, and its loop iteration still
appends the match rows and one nearest-gene row (with empty gene) without
failing. -/
theorem no_protein_coding_empty_nearest (s : SnpRow) (T : List TadGeneRow)
    (g : String) (acc : List ResultRow × List NearestRow)
    (h1 : assign_custom_snp_to_tad s T ≠ [])
    (h2 : ∀ r ∈ assign_custom_snp_to_tad s T, r.gene_type ≠ "protein_coding") :
    nearestGeneName s.position (assign_custom_snp_to_tad s T) = "" ∧
    processSnp T g s acc =
      (acc.1 ++ (assign_custom_snp_to_tad s T).map fun r => ⟨r, s.snp, g⟩,
       acc.2 ++ [⟨"", s.snp, g⟩]) := by
  have hempty := nearestGeneName_no_pc (p := s.position) h2
  refine ⟨hempty, ?_⟩
  rw [processSnp_of_match g acc h1, hempty]

theorem no_protein_coding_empty_nearest_witness :
    (assign_custom_snp_to_tad snpEx [rowNC] ≠ [] ∧
      ∀ r ∈ assign_custom_snp_to_tad snpEx [rowNC], r.gene_type ≠ "protein_coding") ∧
    (nearestGeneName snpEx.position (assign_custom_snp_to_tad snpEx [rowNC]) = "" ∧
     processSnp [rowNC] "g1" snpEx ([], []) =
       (([] : List ResultRow) ++
          (assign_custom_snp_to_tad snpEx [rowNC]).map fun r => ⟨r, snpEx.snp, "g1"⟩,
        ([] : List NearestRow) ++ [⟨"", snpEx.snp, "g1"⟩])) :=
  ⟨⟨by decide, by decide⟩,
   no_protein_coding_empty_nearest snpEx [rowNC] "g1" ([], []) (by decide) (by decide)⟩

/-- **C6**: a SNP whose matched set is empty is silently skipped — its loop
iteration leaves both accumulating tables exactly as they were. -/
theorem no_tad_match_skipped (s : SnpRow) (T : List TadGeneRow) (g : String)
    (acc : List ResultRow × List NearestRow)
    (h : assign_custom_snp_to_tad s T = []) :
    processSnp T g s acc = acc :=
  processSnp_of_no_match g acc h

theorem no_tad_match_skipped_witness :
    assign_custom_snp_to_tad { snpEx with chrom := "chr9" } [rowEx] = [] ∧
    processSnp [rowEx] "g1" { snpEx with chrom := "chr9" }
        ([⟨rowEx, "rs0", "g0"⟩], [⟨"A", "rs0", "g0"⟩])
      = ([⟨rowEx, "rs0", "g0"⟩], [⟨"A", "rs0", "g0"⟩]) :=
  ⟨by decide,
   no_tad_match_skipped { snpEx with chrom := "chr9" } [rowEx] "g1"
     ([⟨rowEx, "rs0", "g0"⟩], [⟨"A", "rs0", "g0"⟩]) (by decide)⟩

/-- **C7**: the nearest-gene table has exactly one row per SNP row of the
input whose matched set is non-empty (each SNP row is iterated exactly once,
in its own group's iteration). -/
theorem nearest_row_count (T : List TadGeneRow) (snps : List SnpRow) :
    (runPipeline T snps).2.length
      = (snps.filter fun s => decide (assign_custom_snp_to_tad s T ≠ [])).length := by
  rw [runPipeline_eq]
  show ((uniqueFirst (snps.map fun s => s.group)).flatMap fun g =>
      (snps.filter fun s => s.group == g).filterMap (nearestRowOf T g)).length = _
  rw [length_flatMap]
  have hpt : ∀ g ∈ uniqueFirst (snps.map fun s => s.group),
      ((snps.filter fun s => s.group == g).filterMap (nearestRowOf T g)).length
        = (snps.filter fun s =>
            decide (assign_custom_snp_to_tad s T ≠ []) && (s.group == g)).length := by
    intro g _
    rw [length_filterMap_nearestRowOf, List.filter_filter]
  rw [List.map_congr_left hpt]
  exact sum_partition _ snps.length snps (le_refl _)

/-- **C8 counterexample**: the claim's primary reading — strip the fixed
prefix from the TABLE's chromosome field and compare with the SNP's chromosome
field — disagrees with the code at the spec's own example: the table stores
`"1"` and the SNP `"chr1"`, the code matches the row, but the spec-worded
lookup returns the empty set (since `"1"` stripped of three characters is
`""`, not `"chr1"`). -/
theorem chromosome_direction_counterexample :
    assign_custom_snp_to_tad snpEx [rowEx] = [rowEx] ∧
    assign_spec_table_stripped snpEx [rowEx] = [] := by
  decide

/-- **C8 (amended)**: the lookup strips the fixed three-character prefix from
the SNP's chromosome field and compares the result with the table's chromosome
field unchanged (together with the half-open position condition). -/
theorem chromosome_match_amended (s : SnpRow) (T : List TadGeneRow) :
    assign_custom_snp_to_tad s T = assign_spec_snp_stripped s T := rfl

/-- **C9**: the run writes exactly two tab-separated files: the TAD-gene
matches at `--output_file` with the fixed thirteen-column header, one row per
(SNP, gene-in-containing-TAD) pair annotated with the SNP's RSid and group,
and the nearest-gene table at the path obtained by replacing the output file's
extension with `_nearest_gene.tsv`, with the fixed header
`MAPPED_GENE, snp, group`. -/
theorem output_files_shape (T : List TadGeneRow) (snps : List SnpRow) (out : String) :
    writtenPaths out = [out, (splitext out).1 ++ "_nearest_gene.tsv"] ∧
    (writtenPaths out).length = 2 ∧
    (resultsOutput T snps out).path = out ∧
    (resultsOutput T snps out).sep = '\t' ∧
    (resultsOutput T snps out).header = results_columns ∧
    (nearestOutput T snps out).path = (splitext out).1 ++ "_nearest_gene.tsv" ∧
    (nearestOutput T snps out).sep = '\t' ∧
    (nearestOutput T snps out).header = ["MAPPED_GENE", "snp", "group"] ∧
    (resultsOutput T snps out).rows =
      ((uniqueFirst (snps.map fun s => s.group)).flatMap fun g =>
        (snps.filter fun s => s.group == g).flatMap fun s =>
          (assign_custom_snp_to_tad s T).map fun r => ⟨r, s.snp, g⟩) := by
  refine ⟨rfl, rfl, rfl, rfl, rfl, rfl, rfl, rfl, ?_⟩
  show (runPipeline T snps).1 = _
  rw [runPipeline_eq]

/-- **C10**: overlapping TADs — every table row whose interval contains the
SNP belongs to the matched set regardless of which TAD it describes, the loop
iteration appends the annotated rows of that whole union, and the nearest
protein-coding gene minimizes the distance over the protein-coding rows of the
whole union. -/
theorem overlapping_tads_union (s : SnpRow) (T : List TadGeneRow) (g : String)
    (acc : List ResultRow × List NearestRow)
    (h : assign_custom_snp_to_tad s T ≠ []) :
    (∀ r ∈ T, snpInTadRow s r → r ∈ assign_custom_snp_to_tad s T) ∧
    processSnp T g s acc =
      (acc.1 ++ (assign_custom_snp_to_tad s T).map fun r => ⟨r, s.snp, g⟩,
       acc.2 ++ [⟨nearestGeneName s.position (assign_custom_snp_to_tad s T), s.snp, g⟩]) ∧
    (∀ hpc : ∃ r ∈ assign_custom_snp_to_tad s T, r.gene_type = "protein_coding",
      ∃ r ∈ assign_custom_snp_to_tad s T,
        r.gene_type = "protein_coding" ∧
        nearestGeneName s.position (assign_custom_snp_to_tad s T) = r.gene_name ∧
        ∀ q ∈ assign_custom_snp_to_tad s T, q.gene_type = "protein_coding" →
          geneMinDist s.position r ≤ geneMinDist s.position q) := by
  refine ⟨?_, processSnp_of_match g acc h, ?_⟩
  · intro r hrT hcond
    exact (mem_assign_iff s T r).mpr ⟨hrT, hcond⟩
  · intro hpc
    exact nearest_min_over_matches s.position (assign_custom_snp_to_tad s T) hpc

theorem overlapping_tads_union_witness :
    assign_custom_snp_to_tad snpEx [rowEx, rowOv] ≠ [] ∧
    (snpInTadRow snpEx rowEx ∧ snpInTadRow snpEx rowOv ∧
      rowEx.TADidx ≠ rowOv.TADidx) ∧
    processSnp [rowEx, rowOv] "g1" snpEx ([], []) =
      (([] : List ResultRow) ++
         (assign_custom_snp_to_tad snpEx [rowEx, rowOv]).map fun r => ⟨r, snpEx.snp, "g1"⟩,
       ([] : List NearestRow) ++
         [⟨nearestGeneName snpEx.position (assign_custom_snp_to_tad snpEx [rowEx, rowOv]),
           snpEx.snp, "g1"⟩]) :=
  ⟨by decide, by decide,
   (overlapping_tads_union snpEx [rowEx, rowOv] "g1" ([], []) (by decide)).2.1⟩

end TadPathways
